import Mathlib

/-!
Verification development for the CMAM package manager (src/cmam.py).

The Python source is shallowly embedded: the registry file, the scripts
directory and the backup store become association lists inside a `State`
structure, the network becomes an `Env` of response oracles, and each
lifecycle command (`install`, `update`, `update_all`'s per-app loop,
`rollback`, `self_update`) becomes a pure Lean function from `Env` and
`State` to a result and a new `State`, translated line by line from the
source.  Directories are assumed to exist (the code calls
`os.makedirs(..., exist_ok=True)` unconditionally), and the Windows PATH
registrar is out of scope, exactly as in the specification.
-/

namespace CMAM

/-! ## Association-list maps (model of Python dicts and of directories) -/

def alookup {κ α : Type} [DecidableEq κ] : List (κ × α) → κ → Option α
  | [], _ => none
  | (k, v) :: rest, k' => if k' = k then some v else alookup rest k'

def aset {κ α : Type} [DecidableEq κ] : List (κ × α) → κ → α → List (κ × α)
  | [], k, v => [(k, v)]
  | (k0, v0) :: rest, k, v =>
      if k = k0 then (k0, v) :: rest else (k0, v0) :: aset rest k v

def aremove {κ α : Type} [DecidableEq κ] : List (κ × α) → κ → List (κ × α)
  | [], _ => []
  | (k0, v0) :: rest, k =>
      if k = k0 then aremove rest k else (k0, v0) :: aremove rest k

/-! ## Version Comparator (cmam.py, `parse_version`, lines 87-108)

`parse_version` strips `'v'` characters from both ends of the string
(Python `str.strip("v")`), matches the regular expression
`(\d+)\.(\d+)\.(\d+)(?:-([a-zA-Z0-9]+))?` at the start of the string
(trailing characters are ignored, as with `re.match`), and maps the
pre-release tag, lower-cased, through
`{None: 3, "rc": 2, "beta": 1, "alpha": 0}` with default `-1`.
A failed regex match raises `ValueError`, modelled by `none`. -/

/-- A parsed version: `(major, minor, patch, preReleaseRank)`.  The rank is
an `Int` because the source assigns `-1` to unrecognized pre-release tags. -/
abbrev Ver := Nat × Nat × Nat × Int

/-- Python `s.strip("v")`: remove `'v'` characters from both ends. -/
def stripV (l : List Char) : List Char :=
  ((l.dropWhile (· = 'v')).reverse.dropWhile (· = 'v')).reverse

/-- Numeric value of a digit string, as Python `int` on the matched digits. -/
def digitsToNat (l : List Char) : Nat :=
  l.foldl (fun acc c => acc * 10 + (c.toNat - 48)) 0

/-- Greedy `\d+`: reads a nonempty run of digits, returns value and rest. -/
def readNat (l : List Char) : Option (Nat × List Char) :=
  let ds := l.takeWhile Char.isDigit
  if ds.isEmpty then none else some (digitsToNat ds, l.dropWhile Char.isDigit)

/-- Expect a literal `'.'`. -/
def expectDot : List Char → Option (List Char)
  | '.' :: r => some r
  | _ => none

/-- The regex `(\d+)\.(\d+)\.(\d+)(?:-([a-zA-Z0-9]+))?` applied with
`re.match` semantics: anchored at the start, trailing input ignored; the
optional pre-release group matches only when a `'-'` is followed by at
least one alphanumeric character. -/
def matchVersion (l : List Char) : Option (Nat × Nat × Nat × Option (List Char)) :=
  match readNat l with
  | none => none
  | some (major, r1) =>
    match expectDot r1 with
    | none => none
    | some r2 =>
      match readNat r2 with
      | none => none
      | some (minor, r3) =>
        match expectDot r3 with
        | none => none
        | some r4 =>
          match readNat r4 with
          | none => none
          | some (patch, r5) =>
            let pre : Option (List Char) :=
              match r5 with
              | '-' :: r6 =>
                  let t := r6.takeWhile Char.isAlphanum
                  if t.isEmpty then none else some t
              | _ => none
            some (major, minor, patch, pre)

/-- The rank of a (lower-cased) pre-release tag:
`{None: 3, "rc": 2, "beta": 1, "alpha": 0}`, default `-1`. -/
def preRank : Option (List Char) → Int
  | none => 3
  | some t =>
      let tl := t.map Char.toLower
      if tl = ['r', 'c'] then 2
      else if tl = ['b', 'e', 't', 'a'] then 1
      else if tl = ['a', 'l', 'p', 'h', 'a'] then 0
      else -1

/-- `parse_version` (cmam.py lines 87-108). `none` models the raised
`ValueError("Invalid version format: ...")`. -/
def parse_version (s : String) : Option Ver :=
  match matchVersion (stripV s.toList) with
  | none => none
  | some (major, minor, patch, pre) => some (major, minor, patch, preRank pre)

/-- Python tuple comparison `a < b` on the 4-tuples returned by
`parse_version`: lexicographic, component-wise. -/
def verLt (a b : Ver) : Bool :=
  if a.1 < b.1 then true
  else if b.1 < a.1 then false
  else if a.2.1 < b.2.1 then true
  else if b.2.1 < a.2.1 then false
  else if a.2.2.1 < b.2.2.1 then true
  else if b.2.2.1 < a.2.2.1 then false
  else decide (a.2.2.2 < b.2.2.2)

/-! ## String helpers used by the commands -/

/-- Python `tag_name.lstrip("v")`: drop leading `'v'` characters
(used by `update`, `update_all`, `self_update`, `check_cmam_update`). -/
def lstripV (s : String) : String :=
  String.mk (s.toList.dropWhile (· = 'v'))

/-- Python `app_version.replace("v", "")`: remove every `'v'` character
(used by `install` when writing the registry entry). -/
def removeAllV (s : String) : String :=
  String.mk (s.toList.filter (fun c => c ≠ 'v'))

/-- Python `asset.get('name', '').lower().endswith('.exe')`. -/
def lowerEndsWithExe (s : String) : Bool :=
  (s.toList.map Char.toLower).reverse.take 4 = ['e', 'x', 'e', '.']

/-! ## Release data, network environment, and local state

The remote side (GitHub manifest, release endpoints, artifact downloads,
the hash of a byte string) is a passive oracle `Env`; the local side
(scripts directory, `packages.json` registry file, `packages.txt` marker,
backup store, and the deferred self-update batch script) is `State`.
Backup files `"{app}_v{version}.exe.bak"` are keyed by their
`(app, version)` pair; script files are keyed by filename. -/

/-- One release asset: `{name, browser_download_url, digest}`. -/
structure Asset where
  name : String
  url : String
  digest : Option String
deriving DecidableEq

/-- The JSON body of a release endpoint response: `tag_name` and `assets`. -/
structure ReleaseData where
  tagName : String
  assets : List Asset
deriving DecidableEq

/-- The asset-selection loop shared by `install`/`update`/`update_all`:
first asset whose name, lower-cased, ends with `.exe`. -/
def firstExeAsset : List Asset → Option Asset
  | [] => none
  | a :: rest => if lowerEndsWithExe a.name then some a else firstExeAsset rest

/-- `get_exe_asset` (cmam.py lines 177-186). -/
def get_exe_asset (rd : ReleaseData) : Option Asset :=
  firstExeAsset rd.assets

/-- Outcome of `requests.get(api_url)` + `raise_for_status()` on a release
endpoint: a JSON body, an `HTTPError` with a status code, or another
`requests.RequestException` (connection error, timeout, ...). -/
inductive HttpResp where
  | ok (rd : ReleaseData)
  | httpError (status : Nat)
  | requestError
deriving DecidableEq

/-- Outcome of streaming a download to the staging file: the full byte
string; a connection failure before the staging file is opened; or an
interruption mid-stream after `written` bytes reached the staging file. -/
inductive DlResp where
  | ok (bytes : String)
  | connectFail
  | midFail (written : String)
deriving DecidableEq

/-- The network oracle.  `manifest` is the result of `fetch_manifest`
(`none` models any of its failure exits), mapping app name to the
`"link"` field.  `release` maps a release API URL to its response,
`download` maps an asset URL to its download outcome, and `sha256hex` is
the hex digest of a byte string. -/
structure Env where
  manifest : Option (List (String × String))
  release : String → HttpResp
  download : String → DlResp
  sha256hex : String → String

def CMAM_VERSION : String := "2.1.0"

def CMAM_REPO : String := "cmerk2021/cmam"

def latestUrl (link : String) : String :=
  "https://api.github.com/repos/" ++ link ++ "/releases/latest"

def tagUrl (link v : String) : String :=
  "https://api.github.com/repos/" ++ link ++ "/releases/tags/v" ++ v

/-- The api_url chosen by `install`/`update`/`fetch_release_info`:
`releases/latest` without a pinned version, `releases/tags/v{version}`
with one. -/
def apiUrl (link : String) : Option String → String
  | none => latestUrl link
  | some v => tagUrl link v

/-- The `packages.json` registry file on disk: absent, syntactically
invalid JSON, or a stored mapping from app name to installed version
(the source stores `{name: {"version": v}}`; the inner dict always has
exactly the `"version"` key, so it is modelled as the version string). -/
inductive RegFile where
  | missing
  | corrupt
  | stored (m : List (String × String))
deriving DecidableEq

/-- Local durable state. -/
structure State where
  scripts : List (String × String)
  regFile : RegFile
  packagesTxt : Bool
  backups : List ((String × String) × String)
  batchScript : Bool
deriving DecidableEq

/-- The exceptions `open` + `json.load` can raise on the modelled file
states. -/
inductive PyErr where
  | fileNotFound
  | jsonDecode
deriving DecidableEq

/-- The body of the `try` in `load_local_packages`: `open` then
`json.load`. -/
def openAndParsePackages : RegFile → Except PyErr (List (String × String))
  | .missing => .error .fileNotFound
  | .corrupt => .error .jsonDecode
  | .stored m => .ok m

/-- `load_local_packages` (cmam.py lines 127-133) with its exception
behaviour explicit: `FileNotFoundError` and `json.JSONDecodeError` are
caught and yield `{}`; nothing else can be raised on these file states. -/
def load_local_packagesE (fs : RegFile) : Except PyErr (List (String × String)) :=
  match openAndParsePackages fs with
  | .ok m => .ok m
  | .error .fileNotFound => .ok []
  | .error .jsonDecode => .ok []

/-- `load_local_packages` as the total function every call site sees. -/
def load_local_packages (fs : RegFile) : List (String × String) :=
  match load_local_packagesE fs with
  | .ok m => m
  | .error _ => []

/-- `save_local_packages` (cmam.py lines 135-138). -/
def save_local_packages (m : List (String × String)) (st : State) : State :=
  { st with regFile := .stored m }

/-- `create_backup` (cmam.py lines 218-226): if `{app}.exe` exists in the
scripts directory, copy it to `{app}_v{version}.exe.bak` in the backup
store (overwriting any backup with the same name); otherwise do nothing. -/
def create_backup (appName version : String) (st : State) : State :=
  match alookup st.scripts (appName ++ ".exe") with
  | some content => { st with backups := aset st.backups (appName, version) content }
  | none => st

/-- `fetch_release_info` (cmam.py lines 159-175).  `Except.error ()`
models the re-raised `HTTPError` (status other than 404); `Except.ok
none` models the `return None` paths (404, and any other
`requests.RequestException`). -/
def fetch_release_info (env : Env) (repo : String) (version : Option String) :
    Except Unit (Option ReleaseData) :=
  match env.release (apiUrl repo version) with
  | .ok rd => .ok (some rd)
  | .httpError s => if s = 404 then .ok none else .error ()
  | .requestError => .ok none

/-- Check 2 of `doctor` (cmam.py lines 1388-1394): whether the
`try: load_local_packages() except:` branch records the
"packages.json is corrupted" issue. -/
def doctorRegistryIssue (fs : RegFile) : Bool :=
  match load_local_packagesE fs with
  | .ok _ => false
  | .error _ => true

/-! ## install (cmam.py lines 295-408) -/

/-- The distinct failure exits of `install` (all `typer.Exit(code=1)`,
told apart by their console messages). -/
inductive InstallErr where
  | alreadyInstalled
  | manifestUnavailable
  | notInManifest
  | versionNotFound
  | httpFailure
  | networkFailure
  | noExeAsset
  | downloadFailed
  | checksumMismatch
deriving DecidableEq

inductive InstallRes where
  | ok
  | err (e : InstallErr)
deriving DecidableEq

/-- `install(app_name, version?)`.  The steps, in source order: the
already-installed check on the `.exe` file; `ensure_dirs` and creation of
`packages.txt`; manifest fetch and lookup; release fetch; asset
selection; streaming download to `{app}.exe.tmp` while hashing; checksum
comparison (deleting the staging file on mismatch); `os.replace` of the
staging file over `{app}.exe`; PATH registration (out of scope); registry
write. -/
def install (env : Env) (appName : String) (version : Option String) (st : State) :
    InstallRes × State :=
  if (alookup st.scripts (appName ++ ".exe")).isSome then
    (.err .alreadyInstalled, st)
  else
    let st1 : State := { st with packagesTxt := true }
    match env.manifest with
    | none => (.err .manifestUnavailable, st1)
    | some man =>
      match alookup man appName with
      | none => (.err .notInManifest, st1)
      | some link =>
        match env.release (apiUrl link version) with
        | .httpError s =>
            if s = 404 then (.err .versionNotFound, st1) else (.err .httpFailure, st1)
        | .requestError => (.err .networkFailure, st1)
        | .ok rd =>
          match firstExeAsset rd.assets with
          | none => (.err .noExeAsset, st1)
          | some asset =>
            let tmp := appName ++ ".exe.tmp"
            let exe := appName ++ ".exe"
            match env.download asset.url with
            | .connectFail => (.err .downloadFailed, st1)
            | .midFail written =>
                (.err .downloadFailed, { st1 with scripts := aset st1.scripts tmp written })
            | .ok bytes =>
              let st2 : State := { st1 with scripts := aset st1.scripts tmp bytes }
              let checksumOk : Bool :=
                match asset.digest with
                | some c => ("sha256:" ++ env.sha256hex bytes) == c
                | none => true
              if checksumOk then
                let st3 : State := { st2 with scripts := aset (aremove st2.scripts tmp) exe bytes }
                let data := load_local_packages st3.regFile
                (.ok, save_local_packages (aset data appName (removeAllV rd.tagName)) st3)
              else
                (.err .checksumMismatch, { st2 with scripts := aremove st2.scripts tmp })

/-! ## update (cmam.py lines 410-532) -/

inductive UpdateErr where
  | notInstalled
  | manifestUnavailable
  | notInManifest
  | versionNotFound
  | httpFailure
  | networkFailure
  | versionMismatch
  | noExeAsset
  | downloadFailed
  | checksumMismatch
deriving DecidableEq

/-- `noopAlreadyCurrent` is the `typer.Exit(code=0)` taken when the
resolved version equals the installed one. -/
inductive UpdateRes where
  | ok
  | noopAlreadyCurrent
  | err (e : UpdateErr)
deriving DecidableEq

/-- `update(app_name, version?, keep_backup)`.  Steps in source order:
not-installed check on the `.exe` file; manifest fetch and lookup;
registry load (`current_version`); release fetch; pinned-version
mismatch check; same-version no-op exit with code 0; asset selection;
backup of the old binary (when `keep_backup`); download to the staging
file; checksum comparison; `os.replace`; registry write. -/
def update (env : Env) (appName : String) (version : Option String) (keepBackup : Bool)
    (st : State) : UpdateRes × State :=
  match alookup st.scripts (appName ++ ".exe") with
  | none => (.err .notInstalled, st)
  | some _ =>
    match env.manifest with
    | none => (.err .manifestUnavailable, st)
    | some man =>
      match alookup man appName with
      | none => (.err .notInManifest, st)
      | some link =>
        let data := load_local_packages st.regFile
        let currentVersion := (alookup data appName).getD "unknown"
        match env.release (apiUrl link version) with
        | .httpError s =>
            if s = 404 then (.err .versionNotFound, st) else (.err .httpFailure, st)
        | .requestError => (.err .networkFailure, st)
        | .ok rd =>
          let newVersion := lstripV rd.tagName
          let pinnedMismatch : Bool :=
            match version with
            | some v => newVersion != v
            | none => false
          if pinnedMismatch then (.err .versionMismatch, st)
          else if currentVersion = newVersion then (.noopAlreadyCurrent, st)
          else
            match firstExeAsset rd.assets with
            | none => (.err .noExeAsset, st)
            | some asset =>
              let tmp := appName ++ ".exe.tmp"
              let exe := appName ++ ".exe"
              let st1 : State := if keepBackup then create_backup appName currentVersion st else st
              match env.download asset.url with
              | .connectFail => (.err .downloadFailed, st1)
              | .midFail written =>
                  (.err .downloadFailed, { st1 with scripts := aset st1.scripts tmp written })
              | .ok bytes =>
                let st2 : State := { st1 with scripts := aset st1.scripts tmp bytes }
                let checksumOk : Bool :=
                  match asset.digest with
                  | some c => ("sha256:" ++ env.sha256hex bytes) == c
                  | none => true
                if checksumOk then
                  let st3 : State := { st2 with scripts := aset (aremove st2.scripts tmp) exe bytes }
                  (.ok, save_local_packages (aset data appName newVersion) st3)
                else
                  (.err .checksumMismatch, { st2 with scripts := aremove st2.scripts tmp })

/-! ## update-all (cmam.py lines 534-698) -/

/-- One row of the `updates_available` list built by the check phase. -/
structure UpdateInfo where
  name : String
  current : String
  latest : String
deriving DecidableEq

/-- The check phase of `update_all` (lines 552-579): for each registry
entry, skip apps absent from the manifest; `fetch_release_info` (its
re-raised non-404 `HTTPError` propagates and aborts the whole command,
hence `Except`); skip when it returned `None`; record the app when the
latest version differs, is nonempty, and parses strictly newer (apps
whose versions fail to parse are skipped by the inner `except`). -/
def checkUpdates (env : Env) (man : List (String × String)) :
    List (String × String) → Except Unit (List UpdateInfo)
  | [] => .ok []
  | (name, ver) :: rest =>
    match alookup man name with
    | none => checkUpdates env man rest
    | some link =>
      match fetch_release_info env link none with
      | .error e => .error e
      | .ok none => checkUpdates env man rest
      | .ok (some rd) =>
        let latest := lstripV rd.tagName
        if ver != latest && latest != "" then
          match parse_version latest, parse_version ver with
          | some l, some c =>
            if verLt c l then
              (checkUpdates env man rest).map (fun t => { name := name, current := ver, latest := latest } :: t)
            else checkUpdates env man rest
          | _, _ => checkUpdates env man rest
        else checkUpdates env man rest

/-- The body of the per-app `try` in the perform loop of `update_all`
(lines 617-677); `false` means the `except` recorded a failure for this
app.  Steps in source order: manifest link; release re-fetch
(`raise_for_status`); asset selection (`raise` when no `.exe` asset);
backup (when `keep_backup`); download to the staging file; checksum
comparison deleting the staging file on mismatch; `os.replace`; registry
reload and rewrite (a `KeyError` on a vanished entry is also caught). -/
def updateAllStep (env : Env) (man : List (String × String)) (keepBackup : Bool)
    (st : State) (u : UpdateInfo) : Bool × State :=
  match alookup man u.name with
  | none => (false, st)
  | some link =>
    match env.release (latestUrl link) with
    | .httpError _ => (false, st)
    | .requestError => (false, st)
    | .ok rd =>
      match firstExeAsset rd.assets with
      | none => (false, st)
      | some asset =>
        let st1 : State := if keepBackup then create_backup u.name u.current st else st
        let tmp := u.name ++ ".exe.tmp"
        let exe := u.name ++ ".exe"
        match env.download asset.url with
        | .connectFail => (false, st1)
        | .midFail written =>
            (false, { st1 with scripts := aset st1.scripts tmp written })
        | .ok bytes =>
          let st2 : State := { st1 with scripts := aset st1.scripts tmp bytes }
          let checksumOk : Bool :=
            match asset.digest with
            | some c => ("sha256:" ++ env.sha256hex bytes) == c
            | none => true
          if checksumOk then
            let st3 : State := { st2 with scripts := aset (aremove st2.scripts tmp) exe bytes }
            let data := load_local_packages st3.regFile
            match alookup data u.name with
            | none => (false, st3)
            | some _ => (true, save_local_packages (aset data u.name u.latest) st3)
          else
            (false, { st2 with scripts := aremove st2.scripts tmp })

/-- The perform loop of `update_all` (lines 609-695): process the
`updates_available` rows one at a time, counting successes and failures;
a failed row never stops the loop.  Returns (final state,
success_count, fail_count). -/
def updateAllRun (env : Env) (man : List (String × String)) (keepBackup : Bool) :
    State → List UpdateInfo → State × Nat × Nat
  | st, [] => (st, 0, 0)
  | st, u :: rest =>
    let r := updateAllStep env man keepBackup st u
    let t := updateAllRun env man keepBackup r.2 rest
    if r.1 then (t.1, t.2.1 + 1, t.2.2) else (t.1, t.2.1, t.2.2 + 1)

/-! ## rollback (cmam.py lines 983-1051) and get_backups (lines 228-242) -/

/-- Sort key fallback used only below the all-parse guard, where it is
never hit. -/
def parseD (v : String) : Ver :=
  (parse_version v).getD (0, 0, 0, 0)

def insertByVerDesc (x : String × String) : List (String × String) → List (String × String)
  | [] => [x]
  | y :: rest =>
      if verLt (parseD y.1) (parseD x.1) then x :: y :: rest
      else y :: insertByVerDesc x rest

/-- `backups.sort(key=..., reverse=True)`: newest first by `parse_version`
order. -/
def sortByVerDesc : List (String × String) → List (String × String)
  | [] => []
  | x :: rest => insertByVerDesc x (sortByVerDesc rest)

/-- The directory scan of `get_backups(app_name)`: the `(version,
contents)` of every backup file of this app. -/
def backupEntriesFor (st : State) (appName : String) : List (String × String) :=
  st.backups.filterMap (fun e => if e.1.1 = appName then some (e.1.2, e.2) else none)

/-- `get_backups` (lines 228-242).  The sort computes `parse_version` for
every entry, so a single unparseable backup version raises `ValueError`
out of the function, modelled by `Except.error`. -/
def get_backupsE (st : State) (appName : String) : Except Unit (List (String × String)) :=
  let entries := backupEntriesFor st appName
  if entries.all (fun e => (parse_version e.1).isSome) then .ok (sortByVerDesc entries)
  else .error ()

inductive RollbackErr where
  | notInstalled
  | noBackups
  | backupNotFound
  | restoreFailed
deriving DecidableEq

/-- `listedBackups` is the read-only query mode (no `--version`);
`crash` is the uncaught `ValueError` from sorting backups by
`parse_version`. -/
inductive RollbackRes where
  | ok
  | listedBackups
  | err (e : RollbackErr)
  | crash
deriving DecidableEq

/-- `rollback(app_name, version?)`.  Steps in source order: registry
membership check; `get_backups`; empty-chain check; list-only mode when
no version given; exact-version search; backup of the currently
installed artifact at `current_version`; `shutil.copy2` of the target
backup file (read at copy time) over `{app}.exe`; registry rewrite to
the target version. -/
def rollback (appName : String) (version : Option String) (st : State) :
    RollbackRes × State :=
  let data := load_local_packages st.regFile
  match alookup data appName with
  | none => (.err .notInstalled, st)
  | some _ =>
    match get_backupsE st appName with
    | .error _ => (.crash, st)
    | .ok backups =>
      if backups.isEmpty then (.err .noBackups, st)
      else
        match version with
        | none => (.listedBackups, st)
        | some v =>
          match backups.find? (fun b => b.1 == v) with
          | none => (.err .backupNotFound, st)
          | some target =>
            let currentVersion := (alookup data appName).getD "unknown"
            let st1 := create_backup appName currentVersion st
            match alookup st1.backups (appName, target.1) with
            | none => (.err .restoreFailed, st1)
            | some content =>
              let st2 : State := { st1 with scripts := aset st1.scripts (appName ++ ".exe") content }
              (.ok, save_local_packages (aset data appName v) st2)

/-! ## self-update (cmam.py lines 865-942) -/

inductive SelfUpdateErr where
  | fetchFailed
  | noAsset
  | noCurrentExe
  | downloadFailed
  | checksumMismatch
deriving DecidableEq

/-- `staged` means the new binary was downloaded, verified and left at
the staging path with the replacement batch script written and started;
`crash` is an uncaught exception (re-raised `HTTPError` from
`fetch_release_info`, or `ValueError` from `parse_version`). -/
inductive SelfUpdateRes where
  | upToDate
  | staged
  | err (e : SelfUpdateErr)
  | crash
deriving DecidableEq

/-- `self_update()`.  Steps in source order: `fetch_release_info` on the
CMAM repo; version comparison `parse(CMAM_VERSION) >= parse(latest)`
(up-to-date exit); `get_exe_asset`; locating the current executable
(`scripts/cmam.exe`; the frozen `sys.executable` fallback is outside the
modelled state); `create_backup("cmam", CMAM_VERSION)`; download to
`cmam.exe.tmp` (the `except` removes the staging file if it exists);
checksum comparison deleting the staging file on mismatch; writing and
starting the deferred replacement batch script. -/
def self_update (env : Env) (st : State) : SelfUpdateRes × State :=
  match fetch_release_info env CMAM_REPO none with
  | .error _ => (.crash, st)
  | .ok none => (.err .fetchFailed, st)
  | .ok (some rd) =>
    let latest := lstripV rd.tagName
    match parse_version CMAM_VERSION, parse_version latest with
    | some cur, some lat =>
      if verLt cur lat = false then (.upToDate, st)
      else
        match get_exe_asset rd with
        | none => (.err .noAsset, st)
        | some asset =>
          match alookup st.scripts "cmam.exe" with
          | none => (.err .noCurrentExe, st)
          | some _ =>
            let st1 := create_backup "cmam" CMAM_VERSION st
            let tmp := "cmam.exe.tmp"
            match env.download asset.url with
            | .connectFail =>
                (.err .downloadFailed, { st1 with scripts := aremove st1.scripts tmp })
            | .midFail written =>
                (.err .downloadFailed,
                  { st1 with scripts := aremove (aset st1.scripts tmp written) tmp })
            | .ok bytes =>
              let st2 : State := { st1 with scripts := aset st1.scripts tmp bytes }
              let checksumOk : Bool :=
                match asset.digest with
                | some c => ("sha256:" ++ env.sha256hex bytes) == c
                | none => true
              if checksumOk then (.staged, { st2 with batchScript := true })
              else (.err .checksumMismatch, { st2 with scripts := aremove st2.scripts tmp })
    | _, _ => (.crash, st)

/-! ## Basic lemmas about the association-list maps -/

theorem alookup_aset_self {κ α : Type} [DecidableEq κ] (l : List (κ × α)) (k : κ) (v : α) :
    alookup (aset l k v) k = some v := by
  induction l with
  | nil => simp [aset, alookup]
  | cons hd tl ih =>
    obtain ⟨k0, v0⟩ := hd
    by_cases h : k = k0
    · simp [aset, h, alookup]
    · simp [aset, h, alookup, ih]

theorem alookup_aset_ne {κ α : Type} [DecidableEq κ] (l : List (κ × α)) (k k' : κ) (v : α)
    (h : k' ≠ k) : alookup (aset l k v) k' = alookup l k' := by
  induction l with
  | nil => simp [aset, alookup, h]
  | cons hd tl ih =>
    obtain ⟨k0, v0⟩ := hd
    by_cases hk : k = k0
    · subst hk
      simp [aset, alookup, h]
    · simp only [aset, if_neg hk, alookup]
      by_cases hk' : k' = k0
      · simp [hk']
      · simp [hk', ih]

theorem alookup_aremove_self {κ α : Type} [DecidableEq κ] (l : List (κ × α)) (k : κ) :
    alookup (aremove l k) k = none := by
  induction l with
  | nil => simp [aremove, alookup]
  | cons hd tl ih =>
    obtain ⟨k0, v0⟩ := hd
    by_cases h : k = k0
    · subst h
      simp [aremove, ih]
    · simp [aremove, h, alookup, ih, Ne.symm h]

theorem alookup_aremove_ne {κ α : Type} [DecidableEq κ] (l : List (κ × α)) (k k' : κ)
    (h : k' ≠ k) : alookup (aremove l k) k' = alookup l k' := by
  induction l with
  | nil => simp [aremove]
  | cons hd tl ih =>
    obtain ⟨k0, v0⟩ := hd
    by_cases hk : k = k0
    · subst hk
      simp [aremove, alookup, h, ih]
    · simp only [aremove, if_neg hk, alookup]
      by_cases hk' : k' = k0
      · simp [hk']
      · simp [hk', ih]

theorem alookup_mem {κ α : Type} [DecidableEq κ] {l : List (κ × α)} {k : κ} {v : α}
    (h : alookup l k = some v) : (k, v) ∈ l := by
  induction l with
  | nil => simp [alookup] at h
  | cons hd tl ih =>
    obtain ⟨k0, v0⟩ := hd
    by_cases hk : k = k0
    · subst hk
      simp [alookup] at h
      subst h
      exact List.mem_cons_self _ _
    · simp [alookup, hk] at h
      exact List.mem_cons_of_mem _ (ih h)

theorem alookup_eq_of_mem_nodup {κ α : Type} [DecidableEq κ] {l : List (κ × α)}
    (hnd : (l.map Prod.fst).Nodup) {k : κ} {v : α} (h : (k, v) ∈ l) :
    alookup l k = some v := by
  induction l with
  | nil => simp at h
  | cons hd tl ih =>
    obtain ⟨k0, v0⟩ := hd
    simp only [List.map_cons, List.nodup_cons] at hnd
    rcases List.mem_cons.mp h with h1 | h1
    · obtain ⟨rfl, rfl⟩ := Prod.mk.injEq .. ▸ h1
      simp [alookup]
    · have hk : k ≠ k0 := by
        rintro rfl
        exact hnd.1 (List.mem_map.mpr ⟨(k, v), h1, rfl⟩)
      simp [alookup, hk, ih hnd.2 h1]

theorem mem_aset {κ α : Type} [DecidableEq κ] {l : List (κ × α)} {k : κ} {v : α}
    {p : κ × α} (h : p ∈ aset l k v) : p = (k, v) ∨ p ∈ l := by
  induction l with
  | nil => simpa [aset] using h
  | cons hd tl ih =>
    obtain ⟨k0, v0⟩ := hd
    by_cases hk : k = k0
    · subst hk
      simp only [aset, if_pos rfl] at h
      rcases List.mem_cons.mp h with h1 | h1
      · exact Or.inl h1
      · exact Or.inr (List.mem_cons_of_mem _ h1)
    · simp only [aset, if_neg hk] at h
      rcases List.mem_cons.mp h with h1 | h1
      · exact Or.inr (h1 ▸ List.mem_cons_self _ _)
      · rcases ih h1 with h2 | h2
        · exact Or.inl h2
        · exact Or.inr (List.mem_cons_of_mem _ h2)

theorem aset_keys_nodup {κ α : Type} [DecidableEq κ] {l : List (κ × α)}
    (hnd : (l.map Prod.fst).Nodup) (k : κ) (v : α) :
    ((aset l k v).map Prod.fst).Nodup := by
  induction l with
  | nil => simp [aset]
  | cons hd tl ih =>
    obtain ⟨k0, v0⟩ := hd
    simp only [List.map_cons, List.nodup_cons] at hnd
    by_cases hk : k = k0
    · subst hk
      have hset : aset ((k, v0) :: tl) k v = (k, v) :: tl := by simp [aset]
      rw [hset]
      simp only [List.map_cons, List.nodup_cons]
      exact ⟨hnd.1, hnd.2⟩
    · simp only [aset, if_neg hk, List.map_cons, List.nodup_cons]
      refine ⟨fun hmem => ?_, ih hnd.2⟩
      rcases List.mem_map.mp hmem with ⟨p, hp, hfst⟩
      rcases mem_aset hp with h1 | h1
      · apply hk
        rw [h1] at hfst
        simpa using hfst
      · exact hnd.1 (List.mem_map.mpr ⟨p, h1, hfst⟩)

/-! ## The tuple order of `parse_version` results -/

theorem verLt_iff (a b : Ver) :
    verLt a b = true ↔
      (a.1 < b.1 ∨ (a.1 = b.1 ∧ (a.2.1 < b.2.1 ∨ (a.2.1 = b.2.1 ∧
        (a.2.2.1 < b.2.2.1 ∨ (a.2.2.1 = b.2.2.1 ∧ a.2.2.2 < b.2.2.2)))))) := by
  unfold verLt
  split_ifs <;> simp <;> omega

theorem ver_eq_iff (a b : Ver) :
    a = b ↔ a.1 = b.1 ∧ a.2.1 = b.2.1 ∧ a.2.2.1 = b.2.2.1 ∧ a.2.2.2 = b.2.2.2 := by
  obtain ⟨a1, a2, a3, a4⟩ := a
  obtain ⟨b1, b2, b3, b4⟩ := b
  simp [Prod.ext_iff]

/-- C6 building block: `verLt` is trichotomous. -/
theorem verLt_trichotomy (a b : Ver) : verLt a b = true ∨ a = b ∨ verLt b a = true := by
  rw [verLt_iff, verLt_iff, ver_eq_iff]
  omega

/-- C6 building block: `verLt` is asymmetric. -/
theorem verLt_asymm (a b : Ver) (h : verLt a b = true) : verLt b a = false := by
  rw [verLt_iff] at h
  rw [Bool.eq_false_iff, Ne, verLt_iff]
  omega

/-- C6 building block: `verLt` is irreflexive. -/
theorem verLt_irrefl (a : Ver) : verLt a a = false := by
  rw [Bool.eq_false_iff, Ne, verLt_iff]
  omega

/-- C6 building block: `verLt` is transitive. -/
theorem verLt_trans (a b c : Ver) (hab : verLt a b = true) (hbc : verLt b c = true) :
    verLt a c = true := by
  rw [verLt_iff] at hab hbc ⊢
  omega

/-! ## Claim theorems: version comparator (C6, C7) -/

/-- C6: the order induced by `parse_version` is a strict total order on
parsed versions (trichotomous, asymmetric, irreflexive, transitive); any
tagged pre-release of a given major.minor.patch is strictly below its
final release; the concrete chain
`1.0.0-alpha < 1.0.0-beta < 1.0.0-rc < 1.0.0` holds; and numeric
components compare numerically, so `1.2.0 < 1.10.0`. -/
theorem c6_version_order :
    (∀ a b : Ver, verLt a b = true ∨ a = b ∨ verLt b a = true) ∧
    (∀ a b : Ver, verLt a b = true → verLt b a = false) ∧
    (∀ a : Ver, verLt a a = false) ∧
    (∀ a b c : Ver, verLt a b = true → verLt b c = true → verLt a c = true) ∧
    (∀ (major minor patch : Nat) (r : Int), r < 3 →
      verLt (major, minor, patch, r) (major, minor, patch, 3) = true) ∧
    parse_version "1.0.0-alpha" = some (1, 0, 0, 0) ∧
    parse_version "1.0.0-beta" = some (1, 0, 0, 1) ∧
    parse_version "1.0.0-rc" = some (1, 0, 0, 2) ∧
    parse_version "1.0.0" = some (1, 0, 0, 3) ∧
    verLt (1, 0, 0, 0) (1, 0, 0, 1) = true ∧
    verLt (1, 0, 0, 1) (1, 0, 0, 2) = true ∧
    verLt (1, 0, 0, 2) (1, 0, 0, 3) = true ∧
    parse_version "1.2.0" = some (1, 2, 0, 3) ∧
    parse_version "1.10.0" = some (1, 10, 0, 3) ∧
    verLt (1, 2, 0, 3) (1, 10, 0, 3) = true := by
  refine ⟨verLt_trichotomy, verLt_asymm, verLt_irrefl, verLt_trans, ?_, ?_⟩
  · intro major minor patch r hr
    rw [verLt_iff]
    dsimp only
    omega
  · exact ⟨by decide, by decide, by decide, by decide, by decide, by decide, by decide,
      by decide, by decide, by decide⟩

/-- C6 witness: the transitivity and pre-release components applied at
concrete versions. -/
theorem c6_version_order_witness :
    verLt (1, 0, 0, 0) (1, 0, 0, 2) = true ∧ verLt (2, 3, 4, 1) (2, 3, 4, 3) = true :=
  ⟨c6_version_order.2.2.2.1 (1, 0, 0, 0) (1, 0, 0, 1) (1, 0, 0, 2) (by decide) (by decide),
   c6_version_order.2.2.2.2.1 2 3 4 1 (by decide)⟩

/-- C7 counterexample: `parse_version "1.0.0-foo"` does not fail with an
invalid-format error; the unrecognized tag is silently given rank `-1`. -/
theorem c7_counterexample : parse_version "1.0.0-foo" = some (1, 0, 0, -1) := by decide

/-- C7 as amended: whenever the version regex matches
`major.minor.patch-tag` and the lower-cased tag is none of `alpha`,
`beta`, `rc`, parsing succeeds (it does not fail) and assigns the
fallback pre-release rank `-1`, which orders below every recognized
tier. -/
theorem c7_amended_fallback_rank (s : String) (major minor patch : Nat) (tag : List Char)
    (hmatch : matchVersion (stripV s.toList) = some (major, minor, patch, some tag))
    (ha : tag.map Char.toLower ≠ ['a', 'l', 'p', 'h', 'a'])
    (hb : tag.map Char.toLower ≠ ['b', 'e', 't', 'a'])
    (hr : tag.map Char.toLower ≠ ['r', 'c']) :
    parse_version s = some (major, minor, patch, -1) ∧
    verLt (major, minor, patch, -1) (major, minor, patch, 0) = true := by
  constructor
  · unfold parse_version
    rw [hmatch]
    simp [preRank, ha, hb, hr]
  · rw [verLt_iff]
    dsimp only
    omega

/-- C7 witness for the amended claim. -/
theorem c7_amended_fallback_rank_witness :
    parse_version "1.0.0-foo" = some (1, 0, 0, -1) ∧
    verLt (1, 0, 0, -1) (1, 0, 0, 0) = true :=
  c7_amended_fallback_rank "1.0.0-foo" 1 0 0 ['f', 'o', 'o'] (by decide) (by decide)
    (by decide) (by decide)

/-! ## Claim theorems: registry loading (C10) -/

/-- C10: `load_local_packages` is total on every modelled registry-file
state (missing, corrupt, or stored): it never raises, a missing and a
corrupted file both load as the empty mapping — indistinguishable from
an empty registry — and the corrupted branch of `doctor`'s registry
check is unreachable. -/
theorem c10_registry_load_total :
    ∀ fs : RegFile,
      load_local_packagesE fs = .ok (load_local_packages fs) ∧
      doctorRegistryIssue fs = false ∧
      load_local_packagesE RegFile.missing = .ok [] ∧
      load_local_packagesE RegFile.corrupt = .ok [] ∧
      load_local_packages RegFile.missing = load_local_packages RegFile.corrupt ∧
      load_local_packages RegFile.corrupt = load_local_packages (RegFile.stored []) := by
  intro fs
  cases fs <;> simp [load_local_packagesE, load_local_packages, openAndParsePackages,
    doctorRegistryIssue]

/-! ## Claim theorems: release lookup outcomes (C9) -/

/-- A concrete environment whose release endpoint fails with a non-HTTP
transport error (connection failure / timeout). -/
def envConnFail : Env :=
  { manifest := none
    release := fun _ => .requestError
    download := fun _ => .connectFail
    sha256hex := fun _ => "" }

/-- A concrete environment whose release endpoint returns HTTP 404. -/
def env404 : Env :=
  { manifest := none
    release := fun _ => .httpError 404
    download := fun _ => .connectFail
    sha256hex := fun _ => "" }

/-- C9 counterexample: a non-HTTP transport failure (a
`requests.RequestException` such as a connection error) makes
`fetch_release_info` return the very same `None` that the 404 path
returns — the two outcomes are conflated, contradicting the claim that
transport failures are never conflated with not-found. -/
theorem c9_counterexample :
    fetch_release_info envConnFail "o/r" none = .ok none ∧
    fetch_release_info env404 "o/r" none = .ok none := by
  exact ⟨rfl, rfl⟩

/-- C9 as amended: a 404 from the tag/latest endpoint yields the
distinguishable not-found outcome (`None`); an `HTTPError` with any other
status is re-raised and propagates; but a non-HTTP
`requests.RequestException` (connection error, timeout) also yields
`None` and is therefore conflated with the not-found outcome. -/
theorem c9_amended_notfound_conflation (env : Env) (repo : String) (version : Option String) :
    (env.release (apiUrl repo version) = .httpError 404 →
      fetch_release_info env repo version = .ok none) ∧
    (∀ s : Nat, s ≠ 404 → env.release (apiUrl repo version) = .httpError s →
      fetch_release_info env repo version = .error ()) ∧
    (env.release (apiUrl repo version) = .requestError →
      fetch_release_info env repo version = .ok none) ∧
    (∀ rd : ReleaseData, env.release (apiUrl repo version) = .ok rd →
      fetch_release_info env repo version = .ok (some rd)) := by
  refine ⟨fun h => by simp [fetch_release_info, h],
    fun s hs h => by simp [fetch_release_info, h, hs],
    fun h => by simp [fetch_release_info, h],
    fun rd h => by simp [fetch_release_info, h]⟩

/-- C9 witness for the amended claim. -/
theorem c9_amended_notfound_conflation_witness :
    fetch_release_info env404 "o/r" none = .ok none ∧
    fetch_release_info envConnFail "o/r" none = .ok none :=
  ⟨(c9_amended_notfound_conflation env404 "o/r" none).1 rfl,
   (c9_amended_notfound_conflation envConnFail "o/r" none).2.2.1 rfl⟩

/-! ## Filename lemmas: the `{app}.exe` / `{app}.exe.tmp` key families -/

theorem string_append_data (a b : String) : (a ++ b).data = a.data ++ b.data := rfl

theorem string_ext {a b : String} (h : a.data = b.data) : a = b := by
  cases a
  cases b
  exact congrArg String.mk h

theorem append_exe_inj {a b : String} (h : a ++ ".exe" = b ++ ".exe") : a = b := by
  have hd : a.data ++ ".exe".data = b.data ++ ".exe".data := by
    rw [← string_append_data, ← string_append_data, h]
  exact string_ext (List.append_cancel_right hd)

theorem exe_ne_exe {a b : String} (h : a ≠ b) : a ++ ".exe" ≠ b ++ ".exe" :=
  fun hc => h (append_exe_inj hc)

theorem exe_ne_tmp (a b : String) : a ++ ".exe" ≠ b ++ ".exe.tmp" := by
  intro h
  have hd : (a ++ ".exe").data.reverse = (b ++ ".exe.tmp").data.reverse := by rw [h]
  rw [string_append_data, string_append_data, List.reverse_append, List.reverse_append] at hd
  have he : (".exe".data).reverse = ['e', 'x', 'e', '.'] := by decide
  have ht : (".exe.tmp".data).reverse = ['p', 'm', 't', '.', 'e', 'x', 'e', '.'] := by decide
  rw [he, ht] at hd
  simp at hd

theorem tmp_ne_exe (a b : String) : a ++ ".exe.tmp" ≠ b ++ ".exe" :=
  fun h => exe_ne_tmp b a h.symm

/-! ## Claim theorems: update idempotence (C4) -/

/-- C4: when the resolved release version equals the currently installed
version, `update` exits successfully with code 0 (the no-op path, not an
error) and the final state is exactly the initial state — registry,
backup chain, and all files untouched — for either value of
`keep_backup`, pinned or not. -/
theorem c4_update_noop (env : Env) (st : State) (appName : String) (pin : Option String)
    (keepBackup : Bool) (man : List (String × String)) (link : String) (rd : ReleaseData)
    (cv : String)
    (hexe : (alookup st.scripts (appName ++ ".exe")).isSome = true)
    (hman : env.manifest = some man)
    (hlink : alookup man appName = some link)
    (hreg : alookup (load_local_packages st.regFile) appName = some cv)
    (hrel : env.release (apiUrl link pin) = .ok rd)
    (hver : lstripV rd.tagName = cv)
    (hpin : pin = none ∨ pin = some cv) :
    update env appName pin keepBackup st = (.noopAlreadyCurrent, st) := by
  obtain ⟨old, hold⟩ := Option.isSome_iff_exists.mp hexe
  rcases hpin with rfl | rfl <;>
    simp [update, hold, hman, hlink, hrel, hreg, hver]

def rdC4 : ReleaseData :=
  { tagName := "v1.0.0", assets := [] }

def envC4 : Env :=
  { manifest := some [("foo", "o/foo")]
    release := fun _ => .ok rdC4
    download := fun _ => .connectFail
    sha256hex := fun _ => "" }

def stC4 : State :=
  { scripts := [("foo.exe", "OLD")]
    regFile := .stored [("foo", "1.0.0")]
    packagesTxt := true
    backups := []
    batchScript := false }

/-- C4 witness. -/
theorem c4_update_noop_witness :
    update envC4 "foo" none true stC4 = (.noopAlreadyCurrent, stC4) :=
  c4_update_noop envC4 stC4 "foo" none true [("foo", "o/foo")] "o/foo" rdC4 "1.0.0"
    (by decide) rfl (by decide) (by decide) rfl (by decide) (Or.inl rfl)

/-! ## Claim theorems: install already-installed check (C8) -/

def stC8 : State :=
  { scripts := [("foo.exe", "X")]
    regFile := .stored []
    packagesTxt := true
    backups := []
    batchScript := false }

/-- C8 counterexample: with an orphaned `foo.exe` on disk and an empty
registry, `install("foo")` fails with `AlreadyInstalled` although no
registry entry for `foo` exists — so the failure is not characterized by
registry membership, refuting the claim's "exactly when a Registry entry
for that name exists". -/
theorem c8_counterexample :
    (install envConnFail "foo" none stC8).1 = .err .alreadyInstalled ∧
    alookup (load_local_packages stC8.regFile) "foo" = none := by decide

/-- C8 as amended: `install` fails with `AlreadyInstalled` exactly when a
file exists at the canonical per-app path `{app}.exe` in the scripts
directory (the source checks the file, not the registry), and in that
case it makes no change to the registry or the filesystem. -/
theorem c8_already_installed (env : Env) (appName : String) (version : Option String)
    (st : State) :
    ((install env appName version st).1 = .err .alreadyInstalled ↔
      (alookup st.scripts (appName ++ ".exe")).isSome = true) ∧
    ((alookup st.scripts (appName ++ ".exe")).isSome = true →
      (install env appName version st).2 = st) := by
  cases hl : alookup st.scripts (appName ++ ".exe") with
  | some c =>
    exact ⟨by simp [install, hl], fun _ => by simp [install, hl]⟩
  | none =>
    refine ⟨⟨fun h => ?_, fun h => by simp at h⟩, fun h => by simp at h⟩
    exfalso
    simp only [install, hl, Option.isSome_none, Bool.false_eq_true, if_false] at h
    split at h
    · simp at h
    · split at h
      · simp at h
      · split at h
        · split at h <;> simp at h
        · simp at h
        · split at h
          · simp at h
          · split at h
            · simp at h
            · simp at h
            · split at h <;> simp at h

/-- C8 witness for the amended claim: in the already-installed case the
state is returned unchanged. -/
theorem c8_already_installed_witness :
    (install envConnFail "foo" none stC8).2 = stC8 :=
  (c8_already_installed envConnFail "foo" none stC8).2 (by decide)

/-! ## Small facts about create_backup -/

theorem create_backup_scripts (a v : String) (st : State) :
    (create_backup a v st).scripts = st.scripts := by
  unfold create_backup
  split <;> rfl

theorem create_backup_regFile (a v : String) (st : State) :
    (create_backup a v st).regFile = st.regFile := by
  unfold create_backup
  split <;> rfl

/-! ## Claim theorems: checksum gate (C1) -/

/-- C1: in each of `install`, `update` and `self_update`, when the
release provides an expected checksum and the digest of the downloaded
bytes differs from it, the operation fails with its checksum-mismatch
exit, the staging `.tmp` file is deleted before returning, the canonical
per-app executable is exactly what it was before, and (for
`self_update`) the deferred replacement script is never created. -/
theorem c1_checksum_gate :
    (∀ (env : Env) (st : State) (appName : String) (pin : Option String)
        (man : List (String × String)) (link : String) (rd : ReleaseData) (asset : Asset)
        (c bytes : String),
      env.manifest = some man →
      alookup man appName = some link →
      alookup st.scripts (appName ++ ".exe") = none →
      env.release (apiUrl link pin) = .ok rd →
      firstExeAsset rd.assets = some asset →
      asset.digest = some c →
      env.download asset.url = .ok bytes →
      ("sha256:" ++ env.sha256hex bytes) ≠ c →
      (install env appName pin st).1 = .err .checksumMismatch ∧
      alookup ((install env appName pin st).2).scripts (appName ++ ".exe") = none ∧
      alookup ((install env appName pin st).2).scripts (appName ++ ".exe.tmp") = none ∧
      ((install env appName pin st).2).regFile = st.regFile) ∧
    (∀ (env : Env) (st : State) (appName : String) (pin : Option String) (keepBackup : Bool)
        (man : List (String × String)) (link : String) (rd : ReleaseData) (asset : Asset)
        (old cv c bytes : String),
      env.manifest = some man →
      alookup man appName = some link →
      alookup st.scripts (appName ++ ".exe") = some old →
      alookup (load_local_packages st.regFile) appName = some cv →
      env.release (apiUrl link pin) = .ok rd →
      (pin = none ∨ pin = some (lstripV rd.tagName)) →
      cv ≠ lstripV rd.tagName →
      firstExeAsset rd.assets = some asset →
      asset.digest = some c →
      env.download asset.url = .ok bytes →
      ("sha256:" ++ env.sha256hex bytes) ≠ c →
      (update env appName pin keepBackup st).1 = .err .checksumMismatch ∧
      alookup ((update env appName pin keepBackup st).2).scripts (appName ++ ".exe") = some old ∧
      alookup ((update env appName pin keepBackup st).2).scripts (appName ++ ".exe.tmp") = none ∧
      ((update env appName pin keepBackup st).2).regFile = st.regFile) ∧
    (∀ (env : Env) (st : State) (rd : ReleaseData) (asset : Asset) (cv lat : Ver)
        (cur c bytes : String),
      env.release (latestUrl CMAM_REPO) = .ok rd →
      parse_version CMAM_VERSION = some cv →
      parse_version (lstripV rd.tagName) = some lat →
      verLt cv lat = true →
      firstExeAsset rd.assets = some asset →
      alookup st.scripts "cmam.exe" = some cur →
      asset.digest = some c →
      env.download asset.url = .ok bytes →
      ("sha256:" ++ env.sha256hex bytes) ≠ c →
      (self_update env st).1 = .err .checksumMismatch ∧
      alookup ((self_update env st).2).scripts "cmam.exe" = some cur ∧
      alookup ((self_update env st).2).scripts "cmam.exe.tmp" = none ∧
      ((self_update env st).2).batchScript = st.batchScript ∧
      ((self_update env st).2).regFile = st.regFile) := by
  refine ⟨?_, ?_, ?_⟩
  · intro env st appName pin man link rd asset c bytes hman hlink hexe hrel hasset hdig hdl hmis
    have hred : install env appName pin st = (.err .checksumMismatch,
        { scripts := aremove (aset st.scripts (appName ++ ".exe.tmp") bytes) (appName ++ ".exe.tmp")
          regFile := st.regFile
          packagesTxt := true
          backups := st.backups
          batchScript := st.batchScript }) := by
      simp [install, hman, hlink, hexe, hrel, hasset, hdig, hdl, beq_iff_eq, hmis]
    rw [hred]
    refine ⟨rfl, ?_, alookup_aremove_self _ _, rfl⟩
    rw [alookup_aremove_ne _ _ _ (exe_ne_tmp appName appName),
      alookup_aset_ne _ _ _ _ (exe_ne_tmp appName appName)]
    exact hexe
  · intro env st appName pin keepBackup man link rd asset old cv c bytes hman hlink hexe hreg
      hrel hpin hcv hasset hdig hdl hmis
    have hs1 : ∀ s1 : State, s1.scripts = st.scripts → s1.regFile = st.regFile →
        update env appName pin keepBackup st = (.err .checksumMismatch,
          { s1 with scripts := aremove (aset s1.scripts (appName ++ ".exe.tmp") bytes) (appName ++ ".exe.tmp") }) →
        (update env appName pin keepBackup st).1 = .err .checksumMismatch ∧
        alookup ((update env appName pin keepBackup st).2).scripts (appName ++ ".exe") = some old ∧
        alookup ((update env appName pin keepBackup st).2).scripts (appName ++ ".exe.tmp") = none ∧
        ((update env appName pin keepBackup st).2).regFile = st.regFile := by
      intro s1 hscr hreg1 hred
      rw [hred]
      refine ⟨rfl, ?_, alookup_aremove_self _ _, hreg1⟩
      rw [alookup_aremove_ne _ _ _ (exe_ne_tmp appName appName),
        alookup_aset_ne _ _ _ _ (exe_ne_tmp appName appName), hscr]
      exact hexe
    cases keepBackup
    · refine hs1 st rfl rfl ?_
      rcases hpin with rfl | rfl <;>
        simp [update, hman, hlink, hexe, hreg, hrel, hasset, hdig, hdl, beq_iff_eq, hmis, hcv]
    · refine hs1 (create_backup appName ((alookup (load_local_packages st.regFile) appName).getD "unknown") st)
        (create_backup_scripts _ _ _) (create_backup_regFile _ _ _) ?_
      rcases hpin with rfl | rfl <;>
        simp [update, hman, hlink, hexe, hreg, hrel, hasset, hdig, hdl, beq_iff_eq, hmis, hcv]
  · intro env st rd asset cv lat cur c bytes hrel hcv hlat hlt hasset hcmam hdig hdl hmis
    have hx : ("cmam" ++ ".exe" : String) = "cmam.exe" := by decide
    have hred : self_update env st = (.err .checksumMismatch,
        { create_backup "cmam" CMAM_VERSION st with
          scripts := aremove (aset (create_backup "cmam" CMAM_VERSION st).scripts "cmam.exe.tmp" bytes) "cmam.exe.tmp" }) := by
      simp [self_update, fetch_release_info, apiUrl, hrel, hcv, hlat, hlt, get_exe_asset,
        hasset, hcmam, hdig, hdl, beq_iff_eq, hmis]
    rw [hred]
    have hne : ("cmam.exe" : String) ≠ "cmam.exe.tmp" := by decide
    refine ⟨rfl, ?_, alookup_aremove_self _ _, ?_, ?_⟩
    · rw [alookup_aremove_ne _ _ _ hne, alookup_aset_ne _ _ _ _ hne, create_backup_scripts]
      exact hcmam
    · simp [create_backup]
      split <;> rfl
    · simp only []
      rw [create_backup_regFile]

def rdC1 : ReleaseData :=
  { tagName := "v1.1.0", assets := [{ name := "foo.exe", url := "U", digest := some "sha256:GOODHASH" }] }

def envC1 : Env :=
  { manifest := some [("foo", "o/foo")]
    release := fun _ => .ok rdC1
    download := fun _ => .ok "EVIL"
    sha256hex := fun _ => "EVILHASH" }

def stC1i : State :=
  { scripts := [], regFile := .stored [], packagesTxt := false, backups := [], batchScript := false }

def stC1u : State :=
  { scripts := [("foo.exe", "OLD")], regFile := .stored [("foo", "1.0.0")], packagesTxt := true,
    backups := [], batchScript := false }

def rdC1s : ReleaseData :=
  { tagName := "v9.9.9", assets := [{ name := "cmam.exe", url := "U", digest := some "sha256:GOODHASH" }] }

def envC1s : Env :=
  { manifest := none
    release := fun _ => .ok rdC1s
    download := fun _ => .ok "EVIL"
    sha256hex := fun _ => "EVILHASH" }

def stC1s : State :=
  { scripts := [("cmam.exe", "CUR")], regFile := .stored [], packagesTxt := true,
    backups := [], batchScript := false }

/-- C1 witness: all three operations at concrete mismatching inputs. -/
theorem c1_checksum_gate_witness :
    ((install envC1 "foo" none stC1i).1 = .err .checksumMismatch ∧
      alookup ((install envC1 "foo" none stC1i).2).scripts ("foo" ++ ".exe.tmp") = none) ∧
    ((update envC1 "foo" none true stC1u).1 = .err .checksumMismatch ∧
      alookup ((update envC1 "foo" none true stC1u).2).scripts ("foo" ++ ".exe") = some "OLD") ∧
    ((self_update envC1s stC1s).1 = .err .checksumMismatch ∧
      ((self_update envC1s stC1s).2).batchScript = stC1s.batchScript) := by
  have h1 := c1_checksum_gate.1 envC1 stC1i "foo" none [("foo", "o/foo")] "o/foo" rdC1
    (Asset.mk "foo.exe" "U" (some "sha256:GOODHASH")) "sha256:GOODHASH" "EVIL"
    rfl (by decide) (by decide) rfl (by decide) (by decide) rfl (by decide)
  have h2 := c1_checksum_gate.2.1 envC1 stC1u "foo" none true [("foo", "o/foo")] "o/foo" rdC1
    (Asset.mk "foo.exe" "U" (some "sha256:GOODHASH")) "OLD" "1.0.0" "sha256:GOODHASH" "EVIL"
    rfl (by decide) (by decide) (by decide) rfl (Or.inl rfl) (by decide) (by decide) (by decide)
    rfl (by decide)
  have h3 := c1_checksum_gate.2.2 envC1s stC1s rdC1s
    (Asset.mk "cmam.exe" "U" (some "sha256:GOODHASH")) (2, 1, 0, 3) (9, 9, 9, 3)
    "CUR" "sha256:GOODHASH" "EVIL"
    rfl (by decide) (by decide) (by decide) (by decide) (by decide) (by decide) rfl (by decide)
  exact ⟨⟨h1.1, h1.2.2.1⟩, ⟨h2.1, h2.2.1⟩, ⟨h3.1, h3.2.2.2.1⟩⟩

/-! ## Claim theorems: install atomicity (C2) -/

/-- C2: any failing run of `install` leaves the registry file untouched;
starting from the Absent state (no registry entry, no canonical
artifact), a failing run leaves no registry entry for the app and no
artifact at the canonical path (the staging file may remain as litter);
and the registry entry appears exactly on the success path, which writes
it only after the atomic `os.replace` of the staging file over the final
path. -/
theorem c2_install_atomic (env : Env) (appName : String) (pin : Option String) (st : State)
    (r : InstallRes) (st' : State) (h : install env appName pin st = (r, st')) :
    (r ≠ .ok → st'.regFile = st.regFile) ∧
    (alookup (load_local_packages st.regFile) appName = none →
      alookup st.scripts (appName ++ ".exe") = none →
      r ≠ .ok →
      alookup (load_local_packages st'.regFile) appName = none ∧
      alookup st'.scripts (appName ++ ".exe") = none) ∧
    (r = .ok →
      (∃ v, alookup (load_local_packages st'.regFile) appName = some v) ∧
      (alookup st'.scripts (appName ++ ".exe")).isSome = true) := by
  unfold install at h
  split at h
  · injection h with hr hs
    subst hr
    subst hs
    refine ⟨fun _ => rfl, fun hregN hexeN _ => ⟨hregN, hexeN⟩, fun hok => by simp at hok⟩
  · split at h
    · injection h with hr hs
      subst hr
      subst hs
      exact ⟨fun _ => rfl, fun hregN hexeN _ => ⟨hregN, hexeN⟩, fun hok => by simp at hok⟩
    · split at h
      · injection h with hr hs
        subst hr
        subst hs
        exact ⟨fun _ => rfl, fun hregN hexeN _ => ⟨hregN, hexeN⟩, fun hok => by simp at hok⟩
      · split at h
        · split at h <;>
          · injection h with hr hs
            subst hr
            subst hs
            exact ⟨fun _ => rfl, fun hregN hexeN _ => ⟨hregN, hexeN⟩, fun hok => by simp at hok⟩
        · injection h with hr hs
          subst hr
          subst hs
          exact ⟨fun _ => rfl, fun hregN hexeN _ => ⟨hregN, hexeN⟩, fun hok => by simp at hok⟩
        · split at h
          · injection h with hr hs
            subst hr
            subst hs
            exact ⟨fun _ => rfl, fun hregN hexeN _ => ⟨hregN, hexeN⟩, fun hok => by simp at hok⟩
          · split at h
            · injection h with hr hs
              subst hr
              subst hs
              exact ⟨fun _ => rfl, fun hregN hexeN _ => ⟨hregN, hexeN⟩, fun hok => by simp at hok⟩
            · injection h with hr hs
              subst hr
              subst hs
              refine ⟨fun _ => rfl, fun hregN hexeN _ => ⟨hregN, ?_⟩, fun hok => by simp at hok⟩
              rw [alookup_aset_ne _ _ _ _ (exe_ne_tmp appName appName)]
              exact hexeN
            · split at h
              · dsimp only at h
                split at h
                · simp only [save_local_packages] at h
                  injection h with hr hs
                  subst hr
                  subst hs
                  refine ⟨fun hne => absurd rfl hne, fun _ _ hne => absurd rfl hne,
                    fun _ => ⟨?_, ?_⟩⟩
                  · exact ⟨_, alookup_aset_self _ _ _⟩
                  · simp only [alookup_aset_self, Option.isSome_some]
                · injection h with hr hs
                  subst hr
                  subst hs
                  refine ⟨fun _ => rfl, fun hregN hexeN _ => ⟨hregN, ?_⟩, fun hok => by simp at hok⟩
                  rw [alookup_aremove_ne _ _ _ (exe_ne_tmp appName appName),
                    alookup_aset_ne _ _ _ _ (exe_ne_tmp appName appName)]
                  exact hexeN
              · simp only [save_local_packages, eq_self_iff_true, if_true] at h
                injection h with hr hs
                subst hr
                subst hs
                refine ⟨fun hne => absurd rfl hne, fun _ _ hne => absurd rfl hne,
                  fun _ => ⟨?_, ?_⟩⟩
                · exact ⟨_, alookup_aset_self _ _ _⟩
                · simp only [alookup_aset_self, Option.isSome_some]

def stEmpty : State :=
  { scripts := [], regFile := .stored [], packagesTxt := false, backups := [], batchScript := false }

/-- C2 witness: a run whose manifest fetch fails leaves no registry
entry and no artifact. -/
theorem c2_install_atomic_witness :
    alookup (load_local_packages ((install envConnFail "bar" none stEmpty).2).regFile) "bar" = none ∧
    alookup ((install envConnFail "bar" none stEmpty).2).scripts ("bar" ++ ".exe") = none :=
  (c2_install_atomic envConnFail "bar" none stEmpty
    (install envConnFail "bar" none stEmpty).1
    (install envConnFail "bar" none stEmpty).2 rfl).2.1 (by decide) (by decide) (by decide)

/-! ## Lemmas about the backup store and get_backups -/

theorem mem_insertByVerDesc {x y : String × String} {l : List (String × String)} :
    y ∈ insertByVerDesc x l ↔ y = x ∨ y ∈ l := by
  induction l with
  | nil => simp [insertByVerDesc]
  | cons hd tl ih =>
    by_cases h : verLt (parseD hd.1) (parseD x.1) = true
    · simp [insertByVerDesc, h]
    · simp only [insertByVerDesc, if_neg h, List.mem_cons, ih]
      tauto

theorem mem_sortByVerDesc {y : String × String} {l : List (String × String)} :
    y ∈ sortByVerDesc l ↔ y ∈ l := by
  induction l with
  | nil => simp [sortByVerDesc]
  | cons hd tl ih => simp [sortByVerDesc, mem_insertByVerDesc, ih]

theorem isEmpty_false_of_mem {α : Type} {a : α} {l : List α} (h : a ∈ l) :
    l.isEmpty = false := by
  cases l <;> simp_all

theorem mem_backupEntriesFor (st : State) (appName : String) (v c : String) :
    (v, c) ∈ backupEntriesFor st appName ↔ ((appName, v), c) ∈ st.backups := by
  unfold backupEntriesFor
  rw [List.mem_filterMap]
  constructor
  · rintro ⟨⟨⟨ea, ev⟩, ec⟩, he, hfe⟩
    by_cases h : ea = appName
    · subst h
      simp only [if_pos rfl] at hfe
      rcases Prod.mk.inj (Option.some.inj hfe) with ⟨rfl, rfl⟩
      exact he
    · simp [h] at hfe
  · intro h
    exact ⟨((appName, v), c), h, by simp⟩

theorem find?_version {l : List (String × String)} {v c : String}
    (hmem : (v, c) ∈ l) (huniq : ∀ p ∈ l, p.1 = v → p = (v, c)) :
    l.find? (fun b => b.1 == v) = some (v, c) := by
  cases hf : l.find? (fun b => b.1 == v) with
  | none =>
    exfalso
    exact absurd (by simp : (((v, c) : String × String).1 == v) = true)
      (List.find?_eq_none.mp hf (v, c) hmem)
  | some r =>
    have h1 := List.find?_some hf
    have h2 : r ∈ l := List.mem_of_find?_eq_some hf
    simp only [beq_iff_eq] at h1
    rw [huniq r h2 h1]

theorem backup_entry_unique {st : State} {appName : String}
    (hnd : (st.backups.map Prod.fst).Nodup) {v c : String}
    (hl : alookup st.backups (appName, v) = some c) :
    ∀ p ∈ backupEntriesFor st appName, p.1 = v → p = (v, c) := by
  rintro ⟨pv, pc⟩ hp hp1
  simp only at hp1
  have hmem : ((appName, v), pc) ∈ st.backups := by
    rw [← hp1]
    exact (mem_backupEntriesFor st appName pv pc).mp hp
  have h2 := alookup_eq_of_mem_nodup hnd hmem
  rw [hl] at h2
  have hc : pc = c := (Option.some.inj h2).symm
  simp [hp1, hc]

/-! ## One successful rollback, characterized -/

/-- A successful `rollback(app, vTgt)` from a state whose registry
records `vCur`: backs up the current artifact under `vCur`, copies the
target backup over the canonical path, and rewrites the registry entry
to `vTgt`. -/
theorem rollback_success (st : State) (app vTgt vCur tgtContent curContent : String)
    (hnd : (st.backups.map Prod.fst).Nodup)
    (hreg : alookup (load_local_packages st.regFile) app = some vCur)
    (hexe : alookup st.scripts (app ++ ".exe") = some curContent)
    (hbk : alookup st.backups (app, vTgt) = some tgtContent)
    (hparse : ∀ e ∈ st.backups, e.1.1 = app → (parse_version e.1.2).isSome = true)
    (hneq : vTgt ≠ vCur) :
    rollback app (some vTgt) st = (.ok,
      { scripts := aset st.scripts (app ++ ".exe") tgtContent
        regFile := .stored (aset (load_local_packages st.regFile) app vTgt)
        packagesTxt := st.packagesTxt
        backups := aset st.backups (app, vCur) curContent
        batchScript := st.batchScript }) := by
  have hall : (backupEntriesFor st app).all (fun e => (parse_version e.1).isSome) = true := by
    rw [List.all_eq_true]
    intro e he
    exact hparse ((app, e.1), e.2) ((mem_backupEntriesFor st app e.1 e.2).mp he) rfl
  have hGB : get_backupsE st app = .ok (sortByVerDesc (backupEntriesFor st app)) := by
    simp [get_backupsE, hall]
  have hmemE : (vTgt, tgtContent) ∈ backupEntriesFor st app :=
    (mem_backupEntriesFor st app vTgt tgtContent).mpr (alookup_mem hbk)
  have hmemS : (vTgt, tgtContent) ∈ sortByVerDesc (backupEntriesFor st app) :=
    mem_sortByVerDesc.mpr hmemE
  have hnonempty : (sortByVerDesc (backupEntriesFor st app)).isEmpty = false :=
    isEmpty_false_of_mem hmemS
  have hfind : (sortByVerDesc (backupEntriesFor st app)).find? (fun b => b.1 == vTgt) =
      some (vTgt, tgtContent) := by
    refine find?_version hmemS fun p hp hp1 => ?_
    exact backup_entry_unique hnd hbk p (mem_sortByVerDesc.mp hp) hp1
  have hkey : ((app, vTgt) : String × String) ≠ (app, vCur) := by
    simp [Prod.ext_iff, hneq]
  have hlk : alookup (aset st.backups (app, vCur) curContent) (app, vTgt) = some tgtContent := by
    rw [alookup_aset_ne _ _ _ _ hkey]
    exact hbk
  simp [rollback, hreg, hGB, hnonempty, hfind, create_backup, hexe, hlk, save_local_packages]

/-! ## Claim theorems: rollback reversibility (C3) -/

/-- C3: with `vNew` installed, its artifact at the canonical path, and a
backup of `vOld` present (all backup versions for the app parseable and
backup filenames unique), `rollback(app, vOld)` followed by
`rollback(app, vNew)` both succeed; the second succeeds precisely
because the first backed up the current artifact under `vNew`.  The
canonical path ends bit-for-bit equal to the original artifact and the
registry ends recording `vNew`. -/
theorem c3_rollback_reversible (st : State) (app vOld vNew orig oldContent : String)
    (hnd : (st.backups.map Prod.fst).Nodup)
    (hreg : alookup (load_local_packages st.regFile) app = some vNew)
    (hexe : alookup st.scripts (app ++ ".exe") = some orig)
    (hbk : alookup st.backups (app, vOld) = some oldContent)
    (hparse : ∀ e ∈ st.backups, e.1.1 = app → (parse_version e.1.2).isSome = true)
    (hpN : (parse_version vNew).isSome = true)
    (hneq : vOld ≠ vNew) :
    ∃ s1 s2,
      rollback app (some vOld) st = (.ok, s1) ∧
      rollback app (some vNew) s1 = (.ok, s2) ∧
      alookup s2.scripts (app ++ ".exe") = some orig ∧
      alookup (load_local_packages s2.regFile) app = some vNew := by
  have h1 := rollback_success st app vOld vNew oldContent orig hnd hreg hexe hbk hparse hneq
  set s1 : State :=
    { scripts := aset st.scripts (app ++ ".exe") oldContent
      regFile := .stored (aset (load_local_packages st.regFile) app vOld)
      packagesTxt := st.packagesTxt
      backups := aset st.backups (app, vNew) orig
      batchScript := st.batchScript } with hs1
  have hnd1 : (s1.backups.map Prod.fst).Nodup := aset_keys_nodup hnd _ _
  have hreg1 : alookup (load_local_packages s1.regFile) app = some vOld := by
    simp only [hs1, load_local_packages, load_local_packagesE, openAndParsePackages]
    exact alookup_aset_self _ _ _
  have hexe1 : alookup s1.scripts (app ++ ".exe") = some oldContent := by
    simp only [hs1]
    exact alookup_aset_self _ _ _
  have hbk1 : alookup s1.backups (app, vNew) = some orig := by
    simp only [hs1]
    exact alookup_aset_self _ _ _
  have hparse1 : ∀ e ∈ s1.backups, e.1.1 = app → (parse_version e.1.2).isSome = true := by
    intro e he h1e
    rcases mem_aset he with rfl | hmem
    · exact hpN
    · exact hparse e hmem h1e
  have h2 := rollback_success s1 app vNew vOld orig oldContent hnd1 hreg1 hexe1 hbk1 hparse1
    (Ne.symm hneq)
  refine ⟨s1, _, h1, h2, ?_, ?_⟩
  · exact alookup_aset_self _ _ _
  · simp only [load_local_packages, load_local_packagesE, openAndParsePackages]
    exact alookup_aset_self _ _ _

def stC3 : State :=
  { scripts := [("foo.exe", "ORIG")]
    regFile := .stored [("foo", "2.0.0")]
    packagesTxt := true
    backups := [(("foo", "1.0.0"), "OLDC")]
    batchScript := false }

/-- C3 witness: the double rollback at a concrete state. -/
theorem c3_rollback_reversible_witness :
    ∃ s1 s2,
      rollback "foo" (some "1.0.0") stC3 = (.ok, s1) ∧
      rollback "foo" (some "2.0.0") s1 = (.ok, s2) ∧
      alookup s2.scripts ("foo" ++ ".exe") = some "ORIG" ∧
      alookup (load_local_packages s2.regFile) "foo" = some "2.0.0" :=
  c3_rollback_reversible stC3 "foo" "1.0.0" "2.0.0" "ORIG" "OLDC"
    (by decide) (by decide) (by decide) (by decide) (by decide) (by decide) (by decide)

/-! ## Lemmas about the update-all perform loop -/

theorem exe_eq_tmp_iff (a b : String) : (a ++ ".exe" = b ++ ".exe.tmp") ↔ False :=
  iff_false_intro (exe_ne_tmp a b)

theorem tmp_eq_exe_iff (a b : String) : (a ++ ".exe.tmp" = b ++ ".exe") ↔ False :=
  iff_false_intro (tmp_ne_exe a b)

theorem exe_eq_exe_iff (a b : String) : (a ++ ".exe" = b ++ ".exe") ↔ a = b :=
  ⟨append_exe_inj, fun h => h ▸ rfl⟩

theorem updateAllRun_cons (env : Env) (man : List (String × String)) (kb : Bool)
    (st : State) (u : UpdateInfo) (l : List UpdateInfo) :
    (updateAllRun env man kb st (u :: l)).1 =
      (updateAllRun env man kb (updateAllStep env man kb st u).2 l).1 := by
  simp only [updateAllRun]
  split <;> rfl

theorem updateAllRun_state_append (env : Env) (man : List (String × String)) (kb : Bool)
    (l1 l2 : List UpdateInfo) :
    ∀ st, (updateAllRun env man kb st (l1 ++ l2)).1 =
      (updateAllRun env man kb (updateAllRun env man kb st l1).1 l2).1 := by
  induction l1 with
  | nil => intro st; rfl
  | cons u rest ih =>
    intro st
    rw [List.cons_append, updateAllRun_cons, updateAllRun_cons, ih]

theorem updateAllRun_tally (env : Env) (man : List (String × String)) (kb : Bool) :
    ∀ (l : List UpdateInfo) (st : State),
      (updateAllRun env man kb st l).2.1 + (updateAllRun env man kb st l).2.2 = l.length := by
  intro l
  induction l with
  | nil => intro st; rfl
  | cons u rest ih =>
    intro st
    have hih := ih (updateAllStep env man kb st u).2
    simp only [updateAllRun, List.length_cons]
    split <;> dsimp only <;> omega

/-- One perform-loop step never touches the canonical executable or the
registry entry of a differently named app. -/
theorem updateAllStep_preserves (env : Env) (man : List (String × String)) (kb : Bool)
    (st : State) (u : UpdateInfo) (n : String) (hne : u.name ≠ n) (b : Bool) (s2 : State)
    (h : updateAllStep env man kb st u = (b, s2)) :
    alookup s2.scripts (n ++ ".exe") = alookup st.scripts (n ++ ".exe") ∧
    alookup (load_local_packages s2.regFile) n = alookup (load_local_packages st.regFile) n := by
  have hne' : n ≠ u.name := Ne.symm hne
  unfold updateAllStep at h
  repeat' split at h
  all_goals try dsimp only at h
  repeat' split at h
  all_goals try simp only [save_local_packages] at h
  all_goals injection h with hb hs
  all_goals subst hb
  all_goals subst hs
  all_goals
    refine ⟨?_, ?_⟩ <;>
      simp [create_backup_scripts, create_backup_regFile, alookup_aset_ne, alookup_aremove_ne,
        exe_eq_tmp_iff, tmp_eq_exe_iff, exe_eq_exe_iff, hne', load_local_packages,
        load_local_packagesE, openAndParsePackages]

theorem updateAllRun_preserves (env : Env) (man : List (String × String)) (kb : Bool)
    (n : String) :
    ∀ (l : List UpdateInfo) (st : State), (∀ u ∈ l, u.name ≠ n) →
      alookup ((updateAllRun env man kb st l).1).scripts (n ++ ".exe") =
        alookup st.scripts (n ++ ".exe") ∧
      alookup (load_local_packages ((updateAllRun env man kb st l).1).regFile) n =
        alookup (load_local_packages st.regFile) n := by
  intro l
  induction l with
  | nil => intro st _; exact ⟨rfl, rfl⟩
  | cons u rest ih =>
    intro st hl
    have hu : u.name ≠ n := hl u (List.mem_cons_self _ _)
    have hrest : ∀ w ∈ rest, w.name ≠ n := fun w hw => hl w (List.mem_cons_of_mem _ hw)
    have hstep := updateAllStep_preserves env man kb st u n hu
      (updateAllStep env man kb st u).1 (updateAllStep env man kb st u).2 rfl
    rw [updateAllRun_cons]
    obtain ⟨h1, h2⟩ := ih (updateAllStep env man kb st u).2 hrest
    exact ⟨h1.trans hstep.1, h2.trans hstep.2⟩

/-- A perform-loop step that reports success has committed the new
binary at the canonical path and rewritten the registry entry to the
latest version. -/
theorem updateAllStep_true (env : Env) (man : List (String × String)) (kb : Bool)
    (st : State) (u : UpdateInfo) (s2 : State)
    (h : updateAllStep env man kb st u = (true, s2)) :
    alookup (load_local_packages s2.regFile) u.name = some u.latest ∧
    (alookup s2.scripts (u.name ++ ".exe")).isSome = true := by
  unfold updateAllStep at h
  repeat' split at h
  all_goals try dsimp only at h
  repeat' split at h
  all_goals try simp only [save_local_packages] at h
  all_goals injection h with hb hs
  all_goals try simp at hb
  all_goals subst hs
  all_goals
    refine ⟨?_, ?_⟩ <;>
      simp [load_local_packages, load_local_packagesE, openAndParsePackages,
        alookup_aset_self]

/-- The check phase only ever records apps that are registry entries, in
registry order. -/
theorem checkUpdates_names_sublist (env : Env) (man : List (String × String)) :
    ∀ (reg : List (String × String)) (l : List UpdateInfo),
      checkUpdates env man reg = .ok l →
      List.Sublist (l.map UpdateInfo.name) (reg.map Prod.fst) := by
  intro reg
  induction reg with
  | nil =>
    intro l h
    simp only [checkUpdates] at h
    obtain rfl := (Except.ok.inj h).symm
    simp
  | cons p rest ih =>
    obtain ⟨name, ver⟩ := p
    intro l h
    simp only [checkUpdates] at h
    split at h
    · exact (ih l h).cons _
    · split at h
      · exact Except.noConfusion h
      · exact (ih l h).cons _
      · split at h
        · split at h
          · split at h
            · cases hin : checkUpdates env man rest with
              | error e =>
                rw [hin] at h
                simp [Except.map] at h
              | ok t =>
                rw [hin] at h
                simp only [Except.map, Except.ok.injEq] at h
                subst h
                simpa using (ih t hin).cons₂ name
            · exact (ih l h).cons _
          · exact (ih l h).cons _
        · exact (ih l h).cons _

/-! ## Claim theorems: batch update semantics (C5) -/

/-- C5: the perform loop of `update_all` runs over every row of the
`updates_available` list computed by the check phase, one at a time; it
always completes with success and failure counts that tally to the
number of rows (each per-app failure is caught and counted, never
aborting the batch); processing later rows never undoes an earlier row's
effect on its executable or registry entry; and a row that reports
success has its new binary at the canonical path and its registry entry
set to the latest version. -/
theorem c5_update_all_batch (envCheck envPerform : Env) (man reg : List (String × String))
    (kb : Bool) (l : List UpdateInfo) (st : State)
    (hck : checkUpdates envCheck man reg = .ok l)
    (hnd : (reg.map Prod.fst).Nodup) :
    ((updateAllRun envPerform man kb st l).2.1 +
      (updateAllRun envPerform man kb st l).2.2 = l.length) ∧
    (∀ pre u post, l = pre ++ u :: post →
      alookup ((updateAllRun envPerform man kb st l).1).scripts (u.name ++ ".exe") =
        alookup ((updateAllRun envPerform man kb st (pre ++ [u])).1).scripts (u.name ++ ".exe") ∧
      alookup (load_local_packages ((updateAllRun envPerform man kb st l).1).regFile) u.name =
        alookup (load_local_packages
          ((updateAllRun envPerform man kb st (pre ++ [u])).1).regFile) u.name) ∧
    (∀ (s : State) (u : UpdateInfo) (s2 : State),
      updateAllStep envPerform man kb s u = (true, s2) →
      alookup (load_local_packages s2.regFile) u.name = some u.latest ∧
      (alookup s2.scripts (u.name ++ ".exe")).isSome = true) := by
  have hndl : (l.map UpdateInfo.name).Nodup :=
    hnd.sublist (checkUpdates_names_sublist envCheck man reg l hck)
  refine ⟨updateAllRun_tally envPerform man kb l st, ?_, ?_⟩
  · intro pre u post hsplit
    have hpost : ∀ w ∈ post, w.name ≠ u.name := by
      subst hsplit
      intro w hw heq
      rw [List.map_append, List.map_cons] at hndl
      have h1 := hndl.of_append_right
      rw [List.nodup_cons] at h1
      exact h1.1 (heq ▸ List.mem_map.mpr ⟨w, hw, rfl⟩)
    have hassoc : l = (pre ++ [u]) ++ post := by
      rw [hsplit, List.append_assoc, List.singleton_append]
    rw [hassoc, updateAllRun_state_append]
    exact updateAllRun_preserves envPerform man kb u.name post
      ((updateAllRun envPerform man kb st (pre ++ [u])).1) hpost
  · intro s u s2 h
    exact updateAllStep_true envPerform man kb s u s2 h

def manC5 : List (String × String) := [("a", "o/a"), ("b", "o/b")]

def regC5 : List (String × String) := [("a", "1.0.0"), ("b", "1.0.0")]

def rdC5a : ReleaseData :=
  { tagName := "v1.1.0", assets := [{ name := "a.exe", url := "UA", digest := none }] }

def rdC5b : ReleaseData :=
  { tagName := "v1.1.0", assets := [{ name := "b.exe", url := "UB", digest := none }] }

def envC5 : Env :=
  { manifest := some manC5
    release := fun url => if url = latestUrl "o/a" then .ok rdC5a else .ok rdC5b
    download := fun url => if url = "UA" then .ok "NEWA" else .connectFail
    sha256hex := fun _ => "" }

def stC5 : State :=
  { scripts := [("a.exe", "A"), ("b.exe", "B")]
    regFile := .stored regC5
    packagesTxt := true
    backups := []
    batchScript := false }

def lC5 : List UpdateInfo :=
  [{ name := "a", current := "1.0.0", latest := "1.1.0" },
   { name := "b", current := "1.0.0", latest := "1.1.0" }]

/-- C5 witness: two apps, the first updates, the second's download
fails; the tally is one success and one failure and the batch completed. -/
theorem c5_update_all_batch_witness :
    ((updateAllRun envC5 manC5 true stC5 lC5).2.1 +
      (updateAllRun envC5 manC5 true stC5 lC5).2.2 = lC5.length) ∧
    alookup ((updateAllRun envC5 manC5 true stC5 lC5).1).scripts ("a" ++ ".exe") =
      alookup ((updateAllRun envC5 manC5 true stC5
        ([] ++ [{ name := "a", current := "1.0.0", latest := "1.1.0" }])).1).scripts
        ("a" ++ ".exe") := by
  have h := c5_update_all_batch envC5 envC5 manC5 regC5 true lC5 stC5 (by rfl) (by decide)
  exact ⟨h.1, (h.2.1 [] { name := "a", current := "1.0.0", latest := "1.1.0" }
    [{ name := "b", current := "1.0.0", latest := "1.1.0" }] rfl).1⟩

end CMAM
